import Mathlib

/-!
Verification of the `PgCryptoStore` crypto store
(`mautrix/crypto/store/asyncpg/store.py`).

The database is modelled as an explicit record of tables, each table a list
of rows; every store method becomes a pure function from (arguments, state)
to (result, state).  SQL semantics used by the source are modelled directly:
`INSERT` appends a row, `UPDATE ... WHERE p` maps the column update over all
rows satisfying `p`, `ON CONFLICT` checks for a row with the conflicting key,
`fetchrow`/`fetchval` return the first matching row, `DELETE ... WHERE p`
filters.  Python `dict` results are modelled as association lists built with
last-writer-wins insertion (`dictInsert`).
-/

namespace Mautrix

/- Batteries marks the rational-number operations irreducible; concrete
evaluation of the duration conversions below needs them unfolded. -/
attribute [local semireducible] Rat.mul Rat.inv Rat.sub Rat.add

abbrev UserID := String
abbrev DeviceID := String
abbrev IdentityKey := String
abbrev SigningKey := String
abbrev SessionID := String
abbrev EventID := String
abbrev RoomID := String

/-- The database scheme discriminator (`mautrix.util.async_db.Scheme`):
the code branches on `POSTGRES`/`COCKROACH` (transactional family) versus
`SQLITE` (simple family). -/
inductive Scheme
  | postgres
  | cockroach
  | sqlite
deriving DecidableEq, Repr

/-- Python `datetime.timedelta`, modelled at its real resolution of one
microsecond. -/
structure Timedelta where
  microseconds : Int
deriving DecidableEq, Repr

/-! The duration conversions of the store go through Python floats:
`total_seconds()` returns an IEEE binary64 double and
`timedelta(seconds=...)` consumes one.  Doubles are modelled as the exact
rationals they denote, and each rounding step of the real computation is
made explicit with `nearestDouble`, rounding a rational to 53 significant
bits with ties to even. -/

/-- Round half to even, the tie rule of IEEE arithmetic and of Python
`round()`. -/
def roundHalfEven (q : ℚ) : ℤ :=
  if q - ⌊q⌋ < 1 / 2 then ⌊q⌋
  else if 1 / 2 < q - ⌊q⌋ then ⌊q⌋ + 1
  else if Even ⌊q⌋ then ⌊q⌋ else ⌊q⌋ + 1

/-- Binary logarithm by fuel-bounded halving; the fuel only bounds the
recursion depth and `n` itself is always enough. -/
def log2Fuel : Nat → Nat → Nat
  | 0, _ => 0
  | fuel + 1, n => if 2 ≤ n then log2Fuel fuel (n / 2) + 1 else 0

/-- Floor of the base-2 logarithm of a positive natural number. -/
def natLog2 (n : Nat) : Nat := log2Fuel n n

/-- Floor of the base-2 logarithm of a positive rational: the numerator
and denominator logarithms give two candidates, settled by one
comparison. -/
def ratFloorLog2 (q : ℚ) : ℤ :=
  if q < 2 ^ ((natLog2 q.num.natAbs : ℤ) - (natLog2 q.den : ℤ)) then
    (natLog2 q.num.natAbs : ℤ) - (natLog2 q.den : ℤ) - 1
  else
    (natLog2 q.num.natAbs : ℤ) - (natLog2 q.den : ℤ)

/-- The IEEE binary64 value nearest to `q` (ties to even), as the exact
rational it denotes: `q` scaled into `[2^52, 2^53)`, rounded half-even to
an integer significand, and scaled back.  Faithful on the normal,
non-overflowing range, which covers every duration and seconds count
these conversions can see. -/
def nearestDouble (q : ℚ) : ℚ :=
  if q = 0 then 0
  else
    (roundHalfEven (q * 2 ^ (52 - ratFloorLog2 |q|)) : ℚ) *
      2 ^ (ratFloorLog2 |q| - 52)

/-- `timedelta.total_seconds()`: CPython divides the exact integer
microsecond count by 10^6 with correctly rounded float division, so the
result is the binary64 value nearest to the exact quotient. -/
def Timedelta.total_seconds (t : Timedelta) : ℚ :=
  nearestDouble ((t.microseconds : ℚ) / 1000000)

/-- The integral part `math.modf` returns: truncation toward zero. -/
def ratTrunc (q : ℚ) : ℤ :=
  if 0 ≤ q then ⌊q⌋ else -⌊-q⌋

/-- `timedelta(seconds=s)` for a float argument: CPython splits `s` with
`math.modf` (exact on doubles), multiplies the fractional part by `1e6`
(one float rounding) and rounds the product half-to-even to whole
microseconds, which join the exact whole-second part. -/
def Timedelta.ofSeconds (s : ℚ) : Timedelta :=
  ⟨ratTrunc s * 1000000 +
    roundHalfEven (nearestDouble ((s - ratTrunc s) * 1000000))⟩

/-- Device trust states (`mautrix.types.TrustState`), a closed enumeration;
only its identity matters to the store, which writes and reads the value
unchanged. -/
inductive TrustState
  | blacklisted
  | unverified
  | unknown_device
  | forwarded
  | cross_signed_untrusted
  | cross_signed_tofu
  | verified
deriving DecidableEq, Repr

/-! ## Table rows -/

/-- A row of `crypto_account`. -/
structure AccountRow where
  account_id : String
  device_id : DeviceID
  shared : Bool
  sync_token : String
  account : String
deriving DecidableEq, Repr

/-- A row of `crypto_olm_session`. -/
structure OlmSessionRow where
  session_id : SessionID
  sender_key : IdentityKey
  session : String
  created_at : Int
  last_encrypted : Int
  last_decrypted : Int
  account_id : String
deriving DecidableEq, Repr

/-- A row of `crypto_megolm_inbound_session`. -/
structure InboundSessionRow where
  session_id : SessionID
  sender_key : IdentityKey
  signing_key : SigningKey
  room_id : RoomID
  session : String
  forwarding_chains : String
  account_id : String
deriving DecidableEq, Repr

/-- The `max_age` column of `crypto_megolm_outbound_session`: a native
duration on the transactional family, a numeric seconds value on SQLite. -/
inductive MaxAgeValue
  | interval (td : Timedelta)
  | seconds (s : ℚ)
deriving DecidableEq, Repr

/-- A row of `crypto_megolm_outbound_session`.  The `session` column holds
the pickled blob (modelled as the session id paired with the opaque ratchet
state, see `OutboundGroupSession.pickle`). -/
structure OutboundSessionRow where
  room_id : RoomID
  session_id : SessionID
  session : SessionID × String
  shared : Bool
  max_messages : Int
  message_count : Int
  max_age : MaxAgeValue
  created_at : Int
  last_used : Int
  account_id : String
deriving DecidableEq, Repr

/-- A row of `crypto_message_index`. -/
structure MessageIndexRow where
  sender_key : IdentityKey
  session_id : SessionID
  index : Int
  event_id : EventID
  timestamp : Int
deriving DecidableEq, Repr

/-- A row of `crypto_device`. -/
structure DeviceRow where
  user_id : UserID
  device_id : DeviceID
  identity_key : IdentityKey
  signing_key : SigningKey
  trust : TrustState
  deleted : Bool
  name : String
deriving DecidableEq, Repr

/-- A row of `crypto_cross_signing_keys`. -/
structure CrossSigningKeyRow where
  user_id : UserID
  usage : String
  key : SigningKey
  first_seen_key : SigningKey
deriving DecidableEq, Repr

/-- A row of `crypto_cross_signing_signatures`. -/
structure SignatureRow where
  signed_user_id : UserID
  signed_key : SigningKey
  signer_user_id : UserID
  signer_key : SigningKey
  signature : String
deriving DecidableEq, Repr

/-- The whole database: one list of rows per table used by the store. -/
structure DBState where
  accounts : List AccountRow
  olm_sessions : List OlmSessionRow
  inbound_sessions : List InboundSessionRow
  outbound_sessions : List OutboundSessionRow
  message_index : List MessageIndexRow
  tracked_users : List UserID
  devices : List DeviceRow
  cross_signing_keys : List CrossSigningKeyRow
  cross_signing_sigs : List SignatureRow
deriving DecidableEq, Repr

/-- The empty database. -/
def emptyDB : DBState :=
  ⟨[], [], [], [], [], [], [], [], []⟩

/-! ## Association-list dictionaries

Python `dict` results are built row by row; a repeated key overwrites the
earlier value in place. -/

/-- `d[k] = v` on an association list: overwrite in place if the key is
present, append otherwise. -/
def dictInsert {α β : Type} [BEq α] (k : α) (v : β) (d : List (α × β)) :
    List (α × β) :=
  if d.any (fun p => p.1 == k) then
    d.map (fun p => if p.1 == k then (k, v) else p)
  else
    d ++ [(k, v)]

/-- Build a dict from a list of key/value pairs, later pairs overwriting
earlier ones. -/
def listToDict {α β : Type} [BEq α] (l : List (α × β)) : List (α × β) :=
  l.foldl (fun acc p => dictInsert p.1 p.2 acc) []

/-! ## Replay-protection ledger (`validate_message_index`) -/

/-- The `WHERE sender_key=$1 AND session_id=$2 AND index=$3` condition. -/
def msgIdxMatch (sender_key : IdentityKey) (session_id : SessionID)
    (index : Int) (r : MessageIndexRow) : Bool :=
  r.sender_key == sender_key && r.session_id == session_id && r.index == index

/-- `SELECT event_id, timestamp FROM crypto_message_index WHERE ...`
(first matching row, as `fetchrow`). -/
def fetchMessageIndex (st : DBState) (sender_key : IdentityKey)
    (session_id : SessionID) (index : Int) : Option MessageIndexRow :=
  st.message_index.find? (msgIdxMatch sender_key session_id index)

/-- The `_validate_message_index_query` CTE:
`INSERT ... ON CONFLICT (sender_key, session_id, index) DO UPDATE SET
sender_key=$1 RETURNING *`.  If no row conflicts the new row is inserted and
returned; otherwise the conflicting row has its `sender_key` column set to
`$1` (a value it already holds, the update existing only so that
`RETURNING` yields the row) and the updated row is returned. -/
def messageIndexUpsertReturning (sender_key : IdentityKey)
    (session_id : SessionID) (index : Int) (event_id : EventID)
    (timestamp : Int) (tbl : List MessageIndexRow) :
    MessageIndexRow × List MessageIndexRow :=
  match tbl.find? (msgIdxMatch sender_key session_id index) with
  | some r =>
      ({ r with sender_key := sender_key },
        tbl.map (fun x =>
          if msgIdxMatch sender_key session_id index x then
            { x with sender_key := sender_key }
          else x))
  | none =>
      let row : MessageIndexRow :=
        ⟨sender_key, session_id, index, event_id, timestamp⟩
      (row, tbl ++ [row])

/-- `PgCryptoStore.validate_message_index`.  Argument order follows the
source: `(sender_key, session_id, event_id, index, timestamp)`. -/
def validate_message_index (scheme : Scheme) (sender_key : IdentityKey)
    (session_id : SessionID) (event_id : EventID) (index : Int)
    (timestamp : Int) (st : DBState) : Bool × DBState :=
  match scheme with
  | .postgres | .cockroach =>
      let res := messageIndexUpsertReturning sender_key session_id index
        event_id timestamp st.message_index
      (res.1.event_id == event_id && res.1.timestamp == timestamp,
        { st with message_index := res.2 })
  | .sqlite =>
      match st.message_index.find? (msgIdxMatch sender_key session_id index) with
      | some row =>
          (row.event_id == event_id && row.timestamp == timestamp, st)
      | none =>
          (true,
            { st with message_index := st.message_index ++
              [⟨sender_key, session_id, index, event_id, timestamp⟩] })

/-- Run a sequence of `validate_message_index` calls that share
`(sender_key, session_id, index)` while `(event_id, timestamp)` varies,
threading the state, and collect the results. -/
def runValidateSeq (scheme : Scheme) (sender_key : IdentityKey)
    (session_id : SessionID) (index : Int) (calls : List (EventID × Int))
    (st : DBState) : List Bool × DBState :=
  match calls with
  | [] => ([], st)
  | c :: rest =>
      let r1 := validate_message_index scheme sender_key session_id c.1
        index c.2 st
      let r2 := runValidateSeq scheme sender_key session_id index rest r1.2
      (r1.1 :: r2.1, r2.2)

/-! ## Device and trust store -/

/-- `mautrix.types.DeviceIdentity`. -/
structure DeviceIdentity where
  user_id : UserID
  device_id : DeviceID
  identity_key : IdentityKey
  signing_key : SigningKey
  trust : TrustState
  deleted : Bool
  name : String
deriving DecidableEq, Repr

/-- The row inserted by `put_devices` for one dict entry: note that the
outer `user_id` argument and the dict key `device_id` are written, not the
fields of the `DeviceIdentity` value. -/
def deviceRowOf (user_id : UserID) (p : DeviceID × DeviceIdentity) :
    DeviceRow :=
  ⟨user_id, p.1, p.2.identity_key, p.2.signing_key, p.2.trust, p.2.deleted,
    p.2.name⟩

/-- `PgCryptoStore.put_devices`: inside one transaction, insert the user
into `crypto_tracked_user` with `ON CONFLICT DO NOTHING`, delete every
`crypto_device` row of the user, then insert the given rows (the
POSTGRES bulk copy and the fallback `executemany` insert the same rows). -/
def put_devices (user_id : UserID)
    (devices : List (DeviceID × DeviceIdentity)) (st : DBState) : DBState :=
  let data := devices.map (deviceRowOf user_id)
  let tracked :=
    if st.tracked_users.contains user_id then st.tracked_users
    else st.tracked_users ++ [user_id]
  { st with
    tracked_users := tracked,
    devices := st.devices.filter (fun r => !(r.user_id == user_id)) ++ data }

/-- The `DeviceIdentity` reconstructed by `get_devices` from one row. -/
def deviceIdentityOfRow (user_id : UserID) (r : DeviceRow) : DeviceIdentity :=
  ⟨user_id, r.device_id, r.identity_key, r.signing_key, r.trust, r.deleted,
    r.name⟩

/-- `PgCryptoStore.get_devices`: `None` when the user is absent from
`crypto_tracked_user`; otherwise the dict built from the user's
`crypto_device` rows. -/
def get_devices (user_id : UserID) (st : DBState) :
    Option (List (DeviceID × DeviceIdentity)) :=
  if st.tracked_users.contains user_id then
    some (listToDict ((st.devices.filter (fun r => r.user_id == user_id)).map
      (fun r => (r.device_id, deviceIdentityOfRow user_id r))))
  else
    none

/-! ## Cross-signing store -/

/-- The `(user_id, usage)` conflict key of `crypto_cross_signing_keys`. -/
def csKeyMatch (user_id : UserID) (usage : String)
    (r : CrossSigningKeyRow) : Bool :=
  r.user_id == user_id && r.usage == usage

/-- The write performed by `put_cross_signing_key`:
`INSERT ... VALUES ($1,$2,$3,$4) ON CONFLICT (user_id, usage) DO UPDATE SET
key=excluded.key` with `$3 = $4 = key`, so on conflict only the `key`
column changes and `first_seen_key` keeps its stored value. -/
def putCrossSigningKeyWrite (user_id : UserID) (usage : String)
    (key : SigningKey) (tbl : List CrossSigningKeyRow) :
    List CrossSigningKeyRow :=
  if tbl.any (csKeyMatch user_id usage) then
    tbl.map (fun r =>
      if csKeyMatch user_id usage r then { r with key := key } else r)
  else
    tbl ++ [⟨user_id, usage, key, key⟩]

/-- A database call that may fail: `fails` selects whether the backend
raises.  A raised error leaves the state untouched (single-statement
atomicity). -/
def dbTry (fails : Bool) (f : DBState → DBState) (st : DBState) :
    Except String DBState :=
  if fails then .error "database error" else .ok (f st)

/-- `PgCryptoStore.put_cross_signing_key`: the write is wrapped in
`try/except Exception: log`, so a backend failure is swallowed; the second
component records whether a failure was logged. -/
def put_cross_signing_key (fails : Bool) (user_id : UserID) (usage : String)
    (key : SigningKey) (st : DBState) : DBState × Bool :=
  match dbTry fails (fun s => { s with
      cross_signing_keys := putCrossSigningKeyWrite user_id usage key
        s.cross_signing_keys }) st with
  | .ok st2 => (st2, false)
  | .error _ => (st, true)

/-- `PgCryptoStore.get_cross_signing_keys`: dict from usage to
`TOFUSigningKey(key, first)` over the user's rows. -/
def get_cross_signing_keys (user_id : UserID) (st : DBState) :
    List (String × (SigningKey × SigningKey)) :=
  listToDict ((st.cross_signing_keys.filter
    (fun r => r.user_id == user_id)).map
    (fun r => (r.usage, (r.key, r.first_seen_key))))

/-- The `(signed_user_id, signed_key, signer_user_id, signer_key)` conflict
key of `crypto_cross_signing_signatures`. -/
def sigRowMatch (target signer : UserID × SigningKey) (r : SignatureRow) :
    Bool :=
  r.signed_user_id == target.1 && r.signed_key == target.2 &&
    r.signer_user_id == signer.1 && r.signer_key == signer.2

/-- The write performed by `put_signature`: upsert of the signature edge,
on conflict only the `signature` column changes. -/
def putSignatureWrite (target signer : UserID × SigningKey)
    (signature : String) (tbl : List SignatureRow) : List SignatureRow :=
  if tbl.any (sigRowMatch target signer) then
    tbl.map (fun r =>
      if sigRowMatch target signer r then { r with signature := signature }
      else r)
  else
    tbl ++ [⟨target.1, target.2, signer.1, signer.2, signature⟩]

/-- `PgCryptoStore.put_signature`: like `put_cross_signing_key`, failures
are caught and logged. -/
def put_signature (fails : Bool) (target signer : UserID × SigningKey)
    (signature : String) (st : DBState) : DBState × Bool :=
  match dbTry fails (fun s => { s with
      cross_signing_sigs := putSignatureWrite target signer signature
        s.cross_signing_sigs }) st with
  | .ok st2 => (st2, false)
  | .error _ => (st, true)

/-! ## `drop_signatures_by_key` and the backend response to a `DELETE`

The value returned by `db.execute` for a `DELETE` depends on the driver:
aiosqlite returns a cursor carrying `rowcount`, asyncpg returns a status
string such as `DELETE 3`.  Strings are modelled as lists of characters so
that the `startswith` / slice / `isdecimal` / `int` steps of the source map
to list operations. -/

/-- A backend response to `db.execute`: an aiosqlite cursor or an asyncpg
status string. -/
inductive ExecResult
  | cursor (rowcount : Int)
  | status (s : List Char)
deriving DecidableEq, Repr

/-- Decimal rendering of a natural number, as the backend formats the
affected-row count. -/
def renderNat : Nat → List Char
  | n =>
    if _h : n < 10 then [Nat.digitChar n]
    else renderNat (n / 10) ++ [Nat.digitChar (n % 10)]
decreasing_by exact Nat.div_lt_self (by omega) (by omega)

/-- `str.isdecimal()`: nonempty and all decimal digits. -/
def isDecimalChars (s : List Char) : Bool :=
  !s.isEmpty && s.all Char.isDigit

/-- `int(s)` on a decimal string. -/
def parseNatChars (s : List Char) : Nat :=
  s.foldl (fun acc c => acc * 10 + (c.toNat - 48)) 0

/-- The literal prefix `"DELETE "` tested by the source. -/
def deleteTag : List Char :=
  ['D', 'E', 'L', 'E', 'T', 'E', ' ']

/-- Rows of `crypto_cross_signing_signatures` authored by `signer`. -/
def sigBySignerMatch (signer : UserID × SigningKey) (r : SignatureRow) :
    Bool :=
  r.signer_user_id == signer.1 && r.signer_key == signer.2

/-- The number of signature rows the `DELETE` of `drop_signatures_by_key`
removes. -/
def countSignaturesBy (signer : UserID × SigningKey) (st : DBState) : Nat :=
  (st.cross_signing_sigs.filter (sigBySignerMatch signer)).length

/-- The state after the `DELETE` of `drop_signatures_by_key`. -/
def dropSignaturesState (signer : UserID × SigningKey) (st : DBState) :
    DBState :=
  { st with cross_signing_sigs :=
      st.cross_signing_sigs.filter (fun r => !(sigBySignerMatch signer r)) }

/-- The response of a faithful backend to a `DELETE` affecting `count`
rows: aiosqlite reports it in `Cursor.rowcount`, the transactional drivers
as the status string `DELETE count`. -/
def deleteResponse (scheme : Scheme) (count : Nat) : ExecResult :=
  match scheme with
  | .sqlite => .cursor count
  | _ => .status (deleteTag ++ renderNat count)

/-- `PgCryptoStore.drop_signatures_by_key`, parametrised by the backend
response `res` to the `DELETE` statement.  A raised error is caught,
logged, and reported as `-1` (with the statement not applied); otherwise
the row count is extracted from a cursor or parsed from a
`DELETE <decimal>` status string, any other response shape yielding the
sentinel `-1`. -/
def drop_signatures_by_key (res : Except String ExecResult)
    (signer : UserID × SigningKey) (st : DBState) : Int × DBState :=
  match res with
  | .error _ => (-1, st)
  | .ok r =>
      let st2 := dropSignaturesState signer st
      match r with
      | .cursor n => (n, st2)
      | .status s =>
          if deleteTag.isPrefixOf s &&
              isDecimalChars (s.drop deleteTag.length) then
            ((parseNatChars (s.drop deleteTag.length) : Int), st2)
          else
            (-1, st2)

/-! ## Outbound group sessions -/

/-- `mautrix.crypto.OutboundGroupSession`: the ratchet state proper is
opaque (`inner`); the session id lives inside the pickled state, the
remaining fields are the bookkeeping attributes the store reads. -/
structure OutboundGroupSession where
  inner : String
  id : SessionID
  room_id : RoomID
  shared : Bool
  max_messages : Int
  message_count : Int
  max_age : Timedelta
  creation_time : Int
  use_time : Int
deriving DecidableEq, Repr

/-- `session.pickle(passphrase)`: an opaque blob carrying the session id
and ratchet state. -/
def OutboundGroupSession.pickle (s : OutboundGroupSession) :
    SessionID × String :=
  (s.id, s.inner)

/-- `OutboundGroupSession.from_pickle(blob, passphrase, room_id, shared,
max_messages, message_count, max_age, use_time, creation_time)`. -/
def OutboundGroupSession.from_pickle (blob : SessionID × String)
    (room_id : RoomID) (shared : Bool) (max_messages message_count : Int)
    (max_age : Timedelta) (use_time creation_time : Int) :
    OutboundGroupSession :=
  ⟨blob.2, blob.1, room_id, shared, max_messages, message_count, max_age,
    creation_time, use_time⟩

/-- The `(account_id, room_id)` conflict key of
`crypto_megolm_outbound_session`. -/
def outboundKeyMatch (account_id : String) (room_id : RoomID)
    (r : OutboundSessionRow) : Bool :=
  r.account_id == account_id && r.room_id == room_id

/-- The value `add_outbound_group_session` writes into the `max_age`
column: on SQLite `max_age.total_seconds()`, elsewhere the duration
itself. -/
def writeMaxAge (scheme : Scheme) (td : Timedelta) : MaxAgeValue :=
  if scheme == .sqlite then .seconds td.total_seconds
  else .interval td

/-- The `ON CONFLICT (account_id, room_id) DO UPDATE` column assignment of
`add_outbound_group_session`: every column except the conflict key is
replaced. -/
def outboundUpdatedRow (scheme : Scheme) (s : OutboundGroupSession)
    (r : OutboundSessionRow) : OutboundSessionRow :=
  { r with
    session_id := s.id, session := s.pickle, shared := s.shared,
    max_messages := s.max_messages, message_count := s.message_count,
    max_age := writeMaxAge scheme s.max_age,
    created_at := s.creation_time, last_used := s.use_time }

/-- `PgCryptoStore.add_outbound_group_session`: on SQLite `max_age` is
stored as `max_age.total_seconds()`; the insert upserts on
`(account_id, room_id)`, on conflict replacing every column except the
conflict key. -/
def add_outbound_group_session (scheme : Scheme) (account_id : String)
    (s : OutboundGroupSession) (st : DBState) : DBState :=
  if st.outbound_sessions.any (outboundKeyMatch account_id s.room_id) then
    { st with outbound_sessions := st.outbound_sessions.map (fun r =>
        if outboundKeyMatch account_id s.room_id r then
          outboundUpdatedRow scheme s r
        else r) }
  else
    { st with outbound_sessions := st.outbound_sessions ++
        [⟨s.room_id, s.id, s.pickle, s.shared, s.max_messages,
          s.message_count, writeMaxAge scheme s.max_age,
          s.creation_time, s.use_time, account_id⟩] }

/-- `PgCryptoStore.update_outbound_group_session`:
`UPDATE ... SET session=$1, message_count=$2, last_used=$3 WHERE
room_id=$4 AND session_id=$5 AND account_id=$6`. -/
def update_outbound_group_session (account_id : String)
    (s : OutboundGroupSession) (st : DBState) : DBState :=
  { st with outbound_sessions := st.outbound_sessions.map (fun r =>
      if r.room_id == s.room_id && r.session_id == s.id &&
          r.account_id == account_id then
        { r with
          session := s.pickle, message_count := s.message_count,
          last_used := s.use_time }
      else r) }

/-- Reading the `max_age` column back: on SQLite the stored numeric value
is passed through `timedelta(seconds=...)`, elsewhere the native duration
is used directly.  With a fixed scheme per database only the matching
variant ever occurs; the mixed cases are given a total fallback. -/
def readMaxAge (scheme : Scheme) (v : MaxAgeValue) : Timedelta :=
  match scheme, v with
  | .sqlite, .seconds s => Timedelta.ofSeconds s
  | .sqlite, .interval td => td
  | _, .interval td => td
  | _, .seconds s => Timedelta.ofSeconds s

/-- `PgCryptoStore.get_outbound_group_session`: first row matching
`room_id` and the account scope, reconstructed with `from_pickle`. -/
def get_outbound_group_session (scheme : Scheme) (account_id : String)
    (room_id : RoomID) (st : DBState) : Option OutboundGroupSession :=
  match st.outbound_sessions.find? (outboundKeyMatch account_id room_id) with
  | none => none
  | some r =>
      some (OutboundGroupSession.from_pickle r.session r.room_id r.shared
        r.max_messages r.message_count (readMaxAge scheme r.max_age)
        r.last_used r.created_at)

/-! ## One-to-one sessions: `has_session` -/

/-- `mautrix.crypto.Session` (one-to-one Olm session), opaque ratchet
state plus the timestamps the store tracks. -/
structure Session where
  inner : String
  id : SessionID
  creation_time : Int
  last_encrypted : Int
  last_decrypted : Int
deriving DecidableEq, Repr

/-- The in-memory `_olm_cache`, abstracted as the total function a
`defaultdict(lambda: dict())` denotes: every key maps to a (possibly
empty) session dict. -/
def OlmCache := IdentityKey → List (SessionID × Session)

/-- `PgCryptoStore.has_session`: true when the cache holds a session for
the key, otherwise when
`SELECT session_id FROM crypto_olm_session WHERE sender_key=$1 AND
account_id=$2` finds a row.  The cache is returned unchanged: the method
never stores a session into it. -/
def has_session (account_id : String) (cache : OlmCache)
    (key : IdentityKey) (st : DBState) : Bool × OlmCache :=
  if (cache key).length > 0 then
    (true, cache)
  else
    ((st.olm_sessions.find? (fun r =>
      r.sender_key == key && r.account_id == account_id)).isSome, cache)

/-! ## Full account wipe -/

/-- `PgCryptoStore.delete`: inside one transaction, delete the account's
rows from `crypto_account`, `crypto_olm_session` and
`crypto_megolm_outbound_session`. -/
def PgCryptoStore.delete (account_id : String) (st : DBState) : DBState :=
  { st with
    accounts := st.accounts.filter (fun r => !(r.account_id == account_id)),
    olm_sessions := st.olm_sessions.filter
      (fun r => !(r.account_id == account_id)),
    outbound_sessions := st.outbound_sessions.filter
      (fun r => !(r.account_id == account_id)) }

/-! ## Lemmas about the replay-protection ledger -/

theorem find?_append_none {α : Type} (p : α → Bool) {l₁ : List α}
    (l₂ : List α) (h : l₁.find? p = none) :
    (l₁ ++ l₂).find? p = l₂.find? p := by
  rw [List.find?_append, h, Option.none_or]

theorem msgIdxMatch_fields {sender_key : IdentityKey}
    {session_id : SessionID} {index : Int} {r : MessageIndexRow}
    (h : msgIdxMatch sender_key session_id index r = true) :
    r.sender_key = sender_key ∧ r.session_id = session_id ∧
      r.index = index := by
  simp only [msgIdxMatch, Bool.and_eq_true, beq_iff_eq] at h
  exact ⟨h.1.1, h.1.2, h.2⟩

theorem msgIdx_update_noop {sender_key : IdentityKey}
    {session_id : SessionID} {index : Int} {r : MessageIndexRow}
    (h : msgIdxMatch sender_key session_id index r = true) :
    ({ r with sender_key := sender_key } : MessageIndexRow) = r := by
  obtain ⟨h1, -, -⟩ := msgIdxMatch_fields h
  cases r
  simp_all

theorem upsertReturning_found {sender_key : IdentityKey}
    {session_id : SessionID} {index : Int} (event_id : EventID)
    (timestamp : Int) {tbl : List MessageIndexRow} {r : MessageIndexRow}
    (h : tbl.find? (msgIdxMatch sender_key session_id index) = some r) :
    messageIndexUpsertReturning sender_key session_id index event_id
      timestamp tbl = (r, tbl) := by
  have hr := List.find?_some h
  unfold messageIndexUpsertReturning
  rw [h]
  refine Prod.ext (msgIdx_update_noop hr) ?_
  show tbl.map _ = tbl
  rw [show tbl = tbl.map id from (List.map_id tbl).symm]
  rw [List.map_map]
  refine List.map_congr_left ?_
  intro x _
  by_cases hx : msgIdxMatch sender_key session_id index x = true
  · simp [hx, msgIdx_update_noop hx]
  · simp [hx]

theorem upsertReturning_absent {sender_key : IdentityKey}
    {session_id : SessionID} {index : Int} (event_id : EventID)
    (timestamp : Int) {tbl : List MessageIndexRow}
    (h : tbl.find? (msgIdxMatch sender_key session_id index) = none) :
    messageIndexUpsertReturning sender_key session_id index event_id
      timestamp tbl =
      (⟨sender_key, session_id, index, event_id, timestamp⟩,
        tbl ++ [⟨sender_key, session_id, index, event_id, timestamp⟩]) := by
  unfold messageIndexUpsertReturning
  rw [h]

/-- Both backend paths: a present row makes the call a pure comparison
that leaves the whole database unchanged. -/
theorem validate_present (scheme : Scheme) {sender_key : IdentityKey}
    {session_id : SessionID} (event_id : EventID) {index : Int}
    (timestamp : Int) {st : DBState} {r : MessageIndexRow}
    (h : fetchMessageIndex st sender_key session_id index = some r) :
    validate_message_index scheme sender_key session_id event_id index
      timestamp st =
      (r.event_id == event_id && r.timestamp == timestamp, st) := by
  unfold fetchMessageIndex at h
  cases scheme with
  | sqlite =>
      unfold validate_message_index
      rw [h]
  | postgres =>
      unfold validate_message_index
      rw [upsertReturning_found event_id timestamp h]
  | cockroach =>
      unfold validate_message_index
      rw [upsertReturning_found event_id timestamp h]

/-- Both backend paths: an absent row makes the call insert the caller's
values and return true. -/
theorem validate_absent (scheme : Scheme) {sender_key : IdentityKey}
    {session_id : SessionID} (event_id : EventID) {index : Int}
    (timestamp : Int) {st : DBState}
    (h : fetchMessageIndex st sender_key session_id index = none) :
    validate_message_index scheme sender_key session_id event_id index
      timestamp st =
      (true, { st with message_index := st.message_index ++
        [⟨sender_key, session_id, index, event_id, timestamp⟩] }) := by
  unfold fetchMessageIndex at h
  cases scheme with
  | sqlite =>
      unfold validate_message_index
      rw [h]
  | postgres =>
      unfold validate_message_index
      rw [upsertReturning_absent event_id timestamp h]
      simp
  | cockroach =>
      unfold validate_message_index
      rw [upsertReturning_absent event_id timestamp h]
      simp

theorem fetch_after_append {sender_key : IdentityKey}
    {session_id : SessionID} {index : Int} (event_id : EventID)
    (timestamp : Int) {st : DBState}
    (h : fetchMessageIndex st sender_key session_id index = none) :
    fetchMessageIndex
      { st with message_index := st.message_index ++
        [⟨sender_key, session_id, index, event_id, timestamp⟩] }
      sender_key session_id index =
      some ⟨sender_key, session_id, index, event_id, timestamp⟩ := by
  unfold fetchMessageIndex at h ⊢
  rw [find?_append_none _ _ h]
  simp [List.find?, msgIdxMatch]

/-- Once a record is pinned, any further sequence of calls on the same key
is a pure sequence of comparisons against the pinned values, and the
database never changes. -/
theorem runValidateSeq_pinned (scheme : Scheme) (sender_key : IdentityKey)
    (session_id : SessionID) (index : Int) (pinned : MessageIndexRow)
    (calls : List (EventID × Int)) :
    ∀ st : DBState,
      fetchMessageIndex st sender_key session_id index = some pinned →
      runValidateSeq scheme sender_key session_id index calls st =
        (calls.map (fun c => pinned.event_id == c.1 &&
          pinned.timestamp == c.2), st) := by
  induction calls with
  | nil => intro st _; rfl
  | cons c rest ih =>
      intro st h
      unfold runValidateSeq
      rw [validate_present scheme c.1 c.2 h]
      dsimp only
      rw [ih st h]
      simp

/-- Claim C1: starting from a state where `(sender_key, session_id, index)`
has no record, a sequence of `validate_message_index` calls on that key —
under any backend scheme — returns true for the first call, true for each
later call exactly when its `(event_id, timestamp)` equals the first
call's, false otherwise, and leaves the stored record pinned to the first
call's `(event_id, timestamp)`. -/
theorem validate_message_index_first_writer_wins (scheme : Scheme)
    (sender_key : IdentityKey) (session_id : SessionID) (index : Int)
    (c : EventID × Int) (rest : List (EventID × Int)) (st : DBState)
    (h : fetchMessageIndex st sender_key session_id index = none) :
    (runValidateSeq scheme sender_key session_id index (c :: rest) st).1 =
      true :: rest.map (fun c2 => c.1 == c2.1 && c.2 == c2.2) ∧
    fetchMessageIndex
      (runValidateSeq scheme sender_key session_id index (c :: rest) st).2
      sender_key session_id index =
      some ⟨sender_key, session_id, index, c.1, c.2⟩ := by
  have h1 := validate_absent scheme c.1 c.2 h
  have h2 := fetch_after_append c.1 c.2 h
  have h3 := runValidateSeq_pinned scheme sender_key session_id index
    ⟨sender_key, session_id, index, c.1, c.2⟩ rest _ h2
  constructor
  · unfold runValidateSeq
    rw [h1]
    dsimp only
    rw [h3]
  · unfold runValidateSeq
    rw [h1]
    dsimp only
    rw [h3]
    exact h2

/-- Witness for C1: the example scenario of the specification, on the
simple-family path. -/
theorem validate_message_index_first_writer_wins_witness :
    fetchMessageIndex emptyDB "abc" "s1" 0 = none ∧
    ((runValidateSeq .sqlite "abc" "s1" 0
        [("$e1", 100), ("$e1", 100), ("$e2", 100)] emptyDB).1 =
      true :: [(("$e1" : EventID), (100 : Int)), ("$e2", 100)].map
        (fun c2 => ("$e1" : EventID) == c2.1 && (100 : Int) == c2.2) ∧
    fetchMessageIndex
      (runValidateSeq .sqlite "abc" "s1" 0
        [("$e1", 100), ("$e1", 100), ("$e2", 100)] emptyDB).2
      "abc" "s1" 0 = some ⟨"abc", "s1", 0, "$e1", 100⟩) :=
  ⟨by decide,
    validate_message_index_first_writer_wins .sqlite "abc" "s1" 0
      ("$e1", 100) [("$e1", 100), ("$e2", 100)] emptyDB (by decide)⟩

/-- Claim C2: on the simple-family path, a present row makes the call a
pure comparison with no write at all, and an absent row makes it append
exactly one row with the caller's values and return true. -/
theorem validate_message_index_simple_family (sender_key : IdentityKey)
    (session_id : SessionID) (event_id : EventID) (index : Int)
    (timestamp : Int) (st : DBState) :
    (∀ r : MessageIndexRow,
      fetchMessageIndex st sender_key session_id index = some r →
      validate_message_index .sqlite sender_key session_id event_id index
        timestamp st =
        (r.event_id == event_id && r.timestamp == timestamp, st)) ∧
    (fetchMessageIndex st sender_key session_id index = none →
      validate_message_index .sqlite sender_key session_id event_id index
        timestamp st =
        (true, { st with message_index := st.message_index ++
          [⟨sender_key, session_id, index, event_id, timestamp⟩] })) :=
  ⟨fun _ h => validate_present .sqlite event_id timestamp h,
    fun h => validate_absent .sqlite event_id timestamp h⟩

/-- Witness for C2: a stored record rejects a different event id without
any write. -/
theorem validate_message_index_simple_family_witness :
    fetchMessageIndex
      { emptyDB with message_index := [⟨"k", "s", 0, "$e1", 100⟩] }
      "k" "s" 0 = some ⟨"k", "s", 0, "$e1", 100⟩ ∧
    validate_message_index .sqlite "k" "s" "$e2" 0 100
      { emptyDB with message_index := [⟨"k", "s", 0, "$e1", 100⟩] } =
      (("$e1" : EventID) == ("$e2" : EventID) && (100 : Int) == (100 : Int),
        { emptyDB with message_index := [⟨"k", "s", 0, "$e1", 100⟩] }) :=
  ⟨by decide,
    (validate_message_index_simple_family "k" "s" "$e2" 0 100
      { emptyDB with message_index := [⟨"k", "s", 0, "$e1", 100⟩] }).1
      ⟨"k", "s", 0, "$e1", 100⟩ (by decide)⟩

/-! ## Dictionary lemmas -/

theorem dictInsert_no_hit {α β : Type} [BEq α] {d : List (α × β)}
    {k : α} (v : β) (h : d.any (fun p => p.1 == k) = false) :
    dictInsert k v d = d ++ [(k, v)] := by
  unfold dictInsert
  rw [h]
  simp

theorem lookup_append_no_hit {α β : Type} [BEq α] {d : List (α × β)}
    (l2 : List (α × β)) {k : α}
    (h : ∀ p ∈ d, (k == p.1) = false) :
    List.lookup k (d ++ l2) = List.lookup k l2 := by
  induction d with
  | nil => rfl
  | cons p t ih =>
      have hp := h p (by simp)
      simp only [List.cons_append, List.lookup, hp]
      exact ih fun q hq => h q (by simp [hq])

theorem lookup_cons_of_ne {α β : Type} [BEq α] {k a : α} (v : β)
    (l : List (α × β)) (h : (k == a) = false) :
    List.lookup k ((a, v) :: l) = List.lookup k l := by
  simp [List.lookup, h]

theorem lookup_map_overwrite {α β : Type} [BEq α] [LawfulBEq α]
    (k : α) (v : β) :
    ∀ d : List (α × β), d.any (fun p => p.1 == k) = true →
      List.lookup k (d.map (fun p => if p.1 == k then (k, v) else p)) =
        some v := by
  intro d
  induction d with
  | nil => intro h; simp at h
  | cons p t ih =>
      intro h
      obtain ⟨a, b⟩ := p
      by_cases hp : (a == k) = true
      · simp only [List.map_cons]
        rw [show (if ((a, b) : α × β).1 == k then (k, v) else (a, b)) =
          (k, v) from by simp [hp]]
        simp
      · rw [Bool.not_eq_true] at hp
        have hk : (k == a) = false := by
          rw [beq_eq_false_iff_ne] at hp ⊢
          exact fun e => hp e.symm
        have ht : t.any (fun p => p.1 == k) = true := by
          simp only [List.any_cons, hp, Bool.false_or] at h
          exact h
        simp only [List.map_cons]
        rw [show (if ((a, b) : α × β).1 == k then (k, v) else (a, b)) =
          (a, b) from by simp [hp]]
        rw [lookup_cons_of_ne b _ hk]
        exact ih ht

theorem lookup_dictInsert_self {α β : Type} [BEq α] [LawfulBEq α]
    (k : α) (v : β) (d : List (α × β)) :
    List.lookup k (dictInsert k v d) = some v := by
  unfold dictInsert
  by_cases hAny : d.any (fun p => p.1 == k) = true
  · rw [if_pos hAny]
    exact lookup_map_overwrite k v d hAny
  · rw [if_neg hAny]
    rw [Bool.not_eq_true] at hAny
    have h2 : ∀ p ∈ d, (k == p.1) = false := by
      have hall := List.any_eq_false.mp hAny
      intro p hp
      have h3 := hall p hp
      rw [Bool.not_eq_true, beq_eq_false_iff_ne] at h3
      rw [beq_eq_false_iff_ne]
      exact fun e => h3 e.symm
    rw [lookup_append_no_hit _ h2]
    simp

theorem listToDict_append_single {α β : Type} [BEq α]
    (l : List (α × β)) (p : α × β) :
    listToDict (l ++ [p]) = dictInsert p.1 p.2 (listToDict l) := by
  unfold listToDict
  rw [List.foldl_append]
  rfl

theorem foldl_dictInsert_fresh {α β : Type} [BEq α] [LawfulBEq α] :
    ∀ (l : List (α × β)) (acc : List (α × β)),
      (l.map Prod.fst).Nodup →
      (∀ p ∈ l, ∀ q ∈ acc, (q.1 == p.1) = false) →
      l.foldl (fun acc p => dictInsert p.1 p.2 acc) acc = acc ++ l := by
  intro l
  induction l with
  | nil => intro acc _ _; simp
  | cons p t ih =>
      intro acc hnd hfresh
      have hnone : acc.any (fun q => q.1 == p.1) = false := by
        rw [Bool.eq_false_iff]
        intro hc
        obtain ⟨q, hq, hqe⟩ := List.any_eq_true.mp hc
        rw [hfresh p (by simp) q hq] at hqe
        exact Bool.false_ne_true hqe
      have hstep : dictInsert p.1 p.2 acc = acc ++ [p] := by
        rw [dictInsert_no_hit _ hnone]
      simp only [List.map_cons, List.nodup_cons] at hnd
      have hrec := ih (acc ++ [p]) hnd.2 ?_
      · simp only [List.foldl_cons, hstep, hrec, List.append_assoc,
          List.singleton_append]
      · intro p2 hp2 q hq
        rcases List.mem_append.mp hq with hq1 | hq2
        · exact hfresh p2 (by simp [hp2]) q hq1
        · have hqp : q = p := by simpa using hq2
          subst hqp
          rw [beq_eq_false_iff_ne]
          intro e
          exact hnd.1 (e ▸ List.mem_map_of_mem Prod.fst hp2)

/-- A key-nodup association list is already a dict: building a dict from
it returns it unchanged. -/
theorem listToDict_self {α β : Type} [BEq α] [LawfulBEq α]
    {l : List (α × β)} (h : (l.map Prod.fst).Nodup) : listToDict l = l := by
  unfold listToDict
  rw [foldl_dictInsert_fresh l [] h (by intro p _ q hq; simp at hq)]
  simp

/-! ## Claim C3: TOFU pinning of cross-signing keys -/

/-- On a non-failing backend, `put_cross_signing_key` applies its upsert
and reports no logged failure. -/
theorem put_cross_signing_key_ok (user_id usage : String)
    (key : SigningKey) (st : DBState) :
    put_cross_signing_key false user_id usage key st =
      ({ st with cross_signing_keys :=
        putCrossSigningKeyWrite user_id usage key st.cross_signing_keys },
        false) := rfl

/-- A failing backend write leaves the state unchanged and is only
logged. -/
theorem put_cross_signing_key_fail (user_id usage : String)
    (key : SigningKey) (st : DBState) :
    put_cross_signing_key true user_id usage key st = (st, true) := rfl

theorem put_signature_ok (target signer : UserID × SigningKey)
    (signature : String) (st : DBState) :
    put_signature false target signer signature st =
      ({ st with cross_signing_sigs :=
        putSignatureWrite target signer signature st.cross_signing_sigs },
        false) := rfl

theorem put_signature_fail (target signer : UserID × SigningKey)
    (signature : String) (st : DBState) :
    put_signature true target signer signature st = (st, true) := rfl

/-- Claim C3: for a `(user_id, usage)` pair without a stored key, storing
K1 then K2 leaves the current key K2 and the first-seen key K1 as observed
through `get_cross_signing_keys`; and on any conflicting write the
`(user_id, usage, first_seen_key)` columns of the whole table are
untouched. -/
theorem put_cross_signing_key_tofu (user_id usage : String)
    (K1 K2 : SigningKey) (st : DBState)
    (h : st.cross_signing_keys.any (csKeyMatch user_id usage) = false) :
    List.lookup usage
      (get_cross_signing_keys user_id
        (put_cross_signing_key false user_id usage K2
          (put_cross_signing_key false user_id usage K1 st).1).1) =
      some (K2, K1) ∧
    (∀ (K : SigningKey) (tbl : List CrossSigningKeyRow),
      tbl.any (csKeyMatch user_id usage) = true →
      (putCrossSigningKeyWrite user_id usage K tbl).map
          (fun r => (r.user_id, r.usage, r.first_seen_key)) =
        tbl.map (fun r => (r.user_id, r.usage, r.first_seen_key))) := by
  have hall := List.any_eq_false.mp h
  have hmatch : csKeyMatch user_id usage
      (⟨user_id, usage, K1, K1⟩ : CrossSigningKeyRow) = true := by
    simp [csKeyMatch]
  constructor
  · have hmap1 : putCrossSigningKeyWrite user_id usage K1
        st.cross_signing_keys =
        st.cross_signing_keys ++ [⟨user_id, usage, K1, K1⟩] := by
      unfold putCrossSigningKeyWrite
      rw [if_neg (by simp [h])]
    have hany2 : (st.cross_signing_keys ++
        [(⟨user_id, usage, K1, K1⟩ : CrossSigningKeyRow)]).any
        (csKeyMatch user_id usage) = true := by
      rw [List.any_append]
      simp [hmatch]
    have hmap2 : putCrossSigningKeyWrite user_id usage K2
        (st.cross_signing_keys ++ [⟨user_id, usage, K1, K1⟩]) =
        st.cross_signing_keys ++ [⟨user_id, usage, K2, K1⟩] := by
      unfold putCrossSigningKeyWrite
      rw [if_pos hany2, List.map_append]
      have hmapid : st.cross_signing_keys.map (fun r =>
          if csKeyMatch user_id usage r then { r with key := K2 } else r) =
          st.cross_signing_keys := by
        rw [show st.cross_signing_keys =
          st.cross_signing_keys.map id from (List.map_id _).symm,
          List.map_map]
        refine List.map_congr_left fun r hr => ?_
        simp only [Function.comp, id]
        rw [if_neg (hall r (by simpa using hr))]
      rw [hmapid]
      simp only [List.map_cons, List.map_nil, if_pos hmatch]
    rw [put_cross_signing_key_ok user_id usage K1 st]
    dsimp only
    rw [hmap1]
    rw [put_cross_signing_key_ok]
    dsimp only
    rw [hmap2]
    unfold get_cross_signing_keys
    rw [List.filter_append]
    have hfil : List.filter (fun r => r.user_id == user_id)
        [(⟨user_id, usage, K2, K1⟩ : CrossSigningKeyRow)] =
        [⟨user_id, usage, K2, K1⟩] := by simp
    rw [hfil, List.map_append]
    simp only [List.map_cons, List.map_nil]
    rw [listToDict_append_single]
    exact lookup_dictInsert_self usage (K2, K1) _
  · intro K tbl hany
    unfold putCrossSigningKeyWrite
    rw [if_pos hany, List.map_map]
    refine List.map_congr_left fun r _ => ?_
    by_cases hr : csKeyMatch user_id usage r = true <;>
      simp [Function.comp, hr]

/-- Witness for C3: storing "key1" then "key2" for a fresh user pins
"key1" as first seen and "key2" as current. -/
theorem put_cross_signing_key_tofu_witness :
    emptyDB.cross_signing_keys.any (csKeyMatch "u" "master") = false ∧
    List.lookup "master"
      (get_cross_signing_keys "u"
        (put_cross_signing_key false "u" "master" "key2"
          (put_cross_signing_key false "u" "master" "key1" emptyDB).1).1) =
      some ("key2", "key1") :=
  ⟨by decide,
    (put_cross_signing_key_tofu "u" "master" "key1" "key2" emptyDB
      (by decide)).1⟩

/-! ## Claim C5: tracked and untracked users are distinguishable -/

/-- Claim C5: `get_devices` returns `None` exactly when the user is not
tracked, and returns the empty mapping for a tracked user without device
rows. -/
theorem get_devices_absent_iff_untracked (user_id : UserID)
    (st : DBState) :
    (get_devices user_id st = none ↔
      st.tracked_users.contains user_id = false) ∧
    (st.tracked_users.contains user_id = true →
      st.devices.filter (fun r => r.user_id == user_id) = [] →
      get_devices user_id st = some []) := by
  constructor
  · unfold get_devices
    by_cases hc : st.tracked_users.contains user_id = true
    · simp [hc]
    · simp [hc]
  · intro hc hfil
    unfold get_devices
    rw [if_pos hc, hfil]
    rfl

/-- Witness for C5: a tracked user with no device rows yields the empty
mapping, not `None`. -/
theorem get_devices_absent_iff_untracked_witness :
    ({ emptyDB with tracked_users := ["u"] } :
        DBState).tracked_users.contains "u" = true ∧
    get_devices "u" { emptyDB with tracked_users := ["u"] } = some [] :=
  ⟨by decide,
    (get_devices_absent_iff_untracked "u"
      { emptyDB with tracked_users := ["u"] }).2 (by decide) (by decide)⟩

/-! ## Claim C9: `has_session` -/

/-- Claim C9: `has_session` is true exactly when the cache holds a session
for the key or a row with that sender key exists in the account's
one-to-one session table, and the cache comes back unchanged. -/
theorem has_session_spec (account_id : String) (cache : OlmCache)
    (key : IdentityKey) (st : DBState) :
    ((has_session account_id cache key st).1 = true ↔
      (cache key ≠ [] ∨ ∃ r ∈ st.olm_sessions,
        r.sender_key = key ∧ r.account_id = account_id)) ∧
    (has_session account_id cache key st).2 = cache := by
  unfold has_session
  by_cases hl : (cache key).length > 0
  · have hne : cache key ≠ [] := by
      intro e
      rw [e] at hl
      simp at hl
    simp [hl, hne]
  · have he : cache key = [] := by
      rw [Nat.not_lt, Nat.le_zero] at hl
      exact List.length_eq_zero.mp hl
    rw [if_neg hl]
    refine ⟨?_, rfl⟩
    rw [Option.isSome_iff_exists]
    constructor
    · rintro ⟨r, hr⟩
      have hmem := List.mem_of_find?_eq_some hr
      have hp := List.find?_some hr
      simp only [Bool.and_eq_true, beq_iff_eq] at hp
      exact Or.inr ⟨r, hmem, hp⟩
    · rintro (hc | ⟨r, hmem, h1, h2⟩)
      · exact absurd he hc
      · have : (st.olm_sessions.find? (fun r =>
            r.sender_key == key && r.account_id == account_id)).isSome :=
          List.find?_isSome.mpr ⟨r, hmem, by simp [h1, h2]⟩
        exact Option.isSome_iff_exists.mp this

/-! ## Claim C10: the account wipe touches exactly three tables -/

/-- Claim C10: `delete` removes exactly the account's rows from the
account, one-to-one session and outbound group session tables, and leaves
the other six tables identical. -/
theorem delete_account_frame (account_id : String) (st : DBState) :
    (∀ r : AccountRow,
      r ∈ (PgCryptoStore.delete account_id st).accounts ↔
        r ∈ st.accounts ∧ r.account_id ≠ account_id) ∧
    (∀ r : OlmSessionRow,
      r ∈ (PgCryptoStore.delete account_id st).olm_sessions ↔
        r ∈ st.olm_sessions ∧ r.account_id ≠ account_id) ∧
    (∀ r : OutboundSessionRow,
      r ∈ (PgCryptoStore.delete account_id st).outbound_sessions ↔
        r ∈ st.outbound_sessions ∧ r.account_id ≠ account_id) ∧
    (PgCryptoStore.delete account_id st).inbound_sessions =
      st.inbound_sessions ∧
    (PgCryptoStore.delete account_id st).message_index =
      st.message_index ∧
    (PgCryptoStore.delete account_id st).tracked_users =
      st.tracked_users ∧
    (PgCryptoStore.delete account_id st).devices = st.devices ∧
    (PgCryptoStore.delete account_id st).cross_signing_keys =
      st.cross_signing_keys ∧
    (PgCryptoStore.delete account_id st).cross_signing_sigs =
      st.cross_signing_sigs := by
  refine ⟨?_, ?_, ?_, rfl, rfl, rfl, rfl, rfl, rfl⟩ <;>
    intro r <;>
    simp [PgCryptoStore.delete, List.mem_filter]

/-! ## Claim C4: `put_devices` is a full replace -/

/-- Claim C4 (amended): for a device mapping whose entries carry the given
`user_id` and their own dict key as `device_id` — the shape every real
device list has, since `get_devices` reconstructs those two fields from
the row key — `put_devices` followed by `get_devices` returns exactly the
mapping passed in, with no residue of any earlier device list; the user is
marked tracked, idempotently. -/
theorem put_devices_full_replace (user_id : UserID)
    (devices : List (DeviceID × DeviceIdentity)) (st : DBState)
    (hnodup : (devices.map Prod.fst).Nodup)
    (hwf : ∀ p ∈ devices, p.2.user_id = user_id ∧ p.2.device_id = p.1) :
    get_devices user_id (put_devices user_id devices st) = some devices ∧
    (put_devices user_id devices st).tracked_users.contains user_id =
      true ∧
    (st.tracked_users.contains user_id = true →
      (put_devices user_id devices st).tracked_users =
        st.tracked_users) := by
  have htr : (put_devices user_id devices st).tracked_users.contains
      user_id = true := by
    unfold put_devices
    dsimp only
    by_cases hc : st.tracked_users.contains user_id = true
    · rw [if_pos hc]
      exact hc
    · rw [if_neg hc]
      simp
  have hdev : (put_devices user_id devices st).devices =
      st.devices.filter (fun r => !(r.user_id == user_id)) ++
        devices.map (deviceRowOf user_id) := rfl
  refine ⟨?_, htr, ?_⟩
  · unfold get_devices
    rw [if_pos htr, hdev, List.filter_append]
    have h1 : (st.devices.filter
        (fun r => !(r.user_id == user_id))).filter
        (fun r => r.user_id == user_id) = [] := by
      rw [List.filter_eq_nil_iff]
      intro r hr
      have h2 := (List.mem_filter.mp hr).2
      rw [Bool.not_eq_true'] at h2
      simp [h2]
    have h2 : (devices.map (deviceRowOf user_id)).filter
        (fun r => r.user_id == user_id) =
        devices.map (deviceRowOf user_id) := by
      rw [List.filter_eq_self]
      intro r hr
      obtain ⟨p, _, rfl⟩ := List.mem_map.mp hr
      simp [deviceRowOf]
    rw [h1, h2, List.nil_append, List.map_map]
    have h3 : devices.map
        ((fun r => (r.device_id, deviceIdentityOfRow user_id r)) ∘
          deviceRowOf user_id) = devices := by
      refine (List.map_congr_left fun p hp => ?_).trans
        (List.map_id devices)
      obtain ⟨hw1, hw2⟩ := hwf p hp
      obtain ⟨did, ident⟩ := p
      dsimp only at hw1 hw2
      cases ident
      dsimp [deviceRowOf, deviceIdentityOfRow, Function.comp] at *
      simp_all
    rw [h3, listToDict_self hnodup]
  · intro hc
    unfold put_devices
    dsimp only
    rw [if_pos hc]

/-- A device mapping whose entry disagrees with its own dict key. -/
def c4Devices : List (DeviceID × DeviceIdentity) :=
  [("d1", ⟨"u", "d2", "ik", "sk", .unverified, false, "laptop"⟩)]

/-- Counterexample to claim C4 as stated: for a mapping whose entry
carries a `device_id` different from its dict key, the row stores the dict
key, so `get_devices` does not return the mapping passed in. -/
theorem put_devices_not_literal_roundtrip :
    get_devices "u" (put_devices "u" c4Devices emptyDB) ≠
      some c4Devices := by decide

/-- A consistent device mapping for the C4 witness. -/
def c4GoodDevices : List (DeviceID × DeviceIdentity) :=
  [("d1", ⟨"u", "d1", "ik", "sk", .unverified, false, "laptop"⟩),
    ("d2", ⟨"u", "d2", "ik2", "sk2", .verified, true, "phone"⟩)]

/-- Witness for the amended C4. -/
theorem put_devices_full_replace_witness :
    (c4GoodDevices.map Prod.fst).Nodup ∧
    (∀ p ∈ c4GoodDevices, p.2.user_id = "u" ∧ p.2.device_id = p.1) ∧
    get_devices "u" (put_devices "u" c4GoodDevices
      { emptyDB with devices :=
        [⟨"u", "old", "oik", "osk", .unverified, false, "stale"⟩] }) =
      some c4GoodDevices :=
  ⟨by decide, by decide,
    (put_devices_full_replace "u" c4GoodDevices
      { emptyDB with devices :=
        [⟨"u", "old", "oik", "osk", .unverified, false, "stale"⟩] }
      (by decide) (by decide)).1⟩

/-! ## Claim C6: the column frame of `update_outbound_group_session` -/

/-- The columns `update_outbound_group_session` never writes. -/
def outboundFrameCols (r : OutboundSessionRow) :
    RoomID × SessionID × Bool × Int × MaxAgeValue × Int × String :=
  (r.room_id, r.session_id, r.shared, r.max_messages, r.max_age,
    r.created_at, r.account_id)

/-- Claim C6 (amended): `update_outbound_group_session` modifies only the
session blob, `message_count` and `last_used` columns; it is keyed by
`(room_id, session_id, account_id)`, so if no stored row matches — in
particular when the stored row's `session_id` differs because the session
was rotated — the database is entirely unchanged; and every other column
of every row, and every other table, is always unchanged. -/
theorem update_outbound_group_session_frame (account_id : String)
    (s : OutboundGroupSession) (st : DBState) :
    ((∀ r ∈ st.outbound_sessions,
        (r.room_id == s.room_id && r.session_id == s.id &&
          r.account_id == account_id) = false) →
      update_outbound_group_session account_id s st = st) ∧
    (update_outbound_group_session account_id s
        st).outbound_sessions.map outboundFrameCols =
      st.outbound_sessions.map outboundFrameCols ∧
    (update_outbound_group_session account_id s st).accounts =
      st.accounts ∧
    (update_outbound_group_session account_id s st).olm_sessions =
      st.olm_sessions ∧
    (update_outbound_group_session account_id s st).inbound_sessions =
      st.inbound_sessions ∧
    (update_outbound_group_session account_id s st).message_index =
      st.message_index ∧
    (update_outbound_group_session account_id s st).tracked_users =
      st.tracked_users ∧
    (update_outbound_group_session account_id s st).devices =
      st.devices ∧
    (update_outbound_group_session account_id s st).cross_signing_keys =
      st.cross_signing_keys ∧
    (update_outbound_group_session account_id s st).cross_signing_sigs =
      st.cross_signing_sigs := by
  refine ⟨?_, ?_, rfl, rfl, rfl, rfl, rfl, rfl, rfl, rfl⟩
  · intro hall
    unfold update_outbound_group_session
    have hid : st.outbound_sessions.map (fun r =>
        if r.room_id == s.room_id && r.session_id == s.id &&
            r.account_id == account_id then
          { r with
            session := s.pickle, message_count := s.message_count,
            last_used := s.use_time }
        else r) = st.outbound_sessions := by
      refine (List.map_congr_left fun r hr => ?_).trans (List.map_id _)
      rw [if_neg (by simp [hall r hr])]
      rfl
    rw [hid]
  · unfold update_outbound_group_session
    dsimp only
    rw [List.map_map]
    refine List.map_congr_left fun r _ => ?_
    dsimp only [Function.comp]
    by_cases hr : (r.room_id == s.room_id && r.session_id == s.id &&
        r.account_id == account_id) = true
    · rw [if_pos hr]
      rfl
    · rw [if_neg hr]

/-- A stored outbound-session row for the C6 examples. -/
def c6Row : OutboundSessionRow :=
  ⟨"room1", "sid1", ("sid1", "ratchet1"), false, 100, 5,
    .interval ⟨0⟩, 10, 20, "acct"⟩

/-- A single-row database around `c6Row`. -/
def c6State : DBState := { emptyDB with outbound_sessions := [c6Row] }

/-- The in-memory session whose ratchet state advanced past the stored
blob. -/
def c6Session : OutboundGroupSession :=
  ⟨"ratchet2", "sid1", "room1", false, 100, 5, ⟨0⟩, 10, 20⟩

/-- A caller session whose id no longer matches the stored row. -/
def c6Rotated : OutboundGroupSession :=
  ⟨"ratchet3", "sid2", "room1", false, 100, 7, ⟨0⟩, 10, 25⟩

/-- Counterexample to claim C6 as stated: the update also rewrites the
`session` blob column, not only `message_count` and `last_used`. -/
theorem update_outbound_group_session_changes_blob :
    (update_outbound_group_session "acct" c6Session
        c6State).outbound_sessions.map (fun r => r.session) ≠
      c6State.outbound_sessions.map (fun r => r.session) := by decide

/-- Witness for the amended C6: a caller whose `session_id` was rotated
away updates zero rows, leaving the database unchanged. -/
theorem update_outbound_group_session_frame_witness :
    (∀ r ∈ c6State.outbound_sessions,
      (r.room_id == c6Rotated.room_id && r.session_id == c6Rotated.id &&
        r.account_id == "acct") = false) ∧
    update_outbound_group_session "acct" c6Rotated c6State = c6State :=
  ⟨by decide,
    (update_outbound_group_session_frame "acct" c6Rotated c6State).1
      (by decide)⟩

/-! ## Claim C7: outbound session round-trip -/

theorem log2Fuel_le :
    ∀ (fuel n : ℕ), 1 ≤ n → n ≤ fuel → 2 ^ log2Fuel fuel n ≤ n := by
  intro fuel
  induction fuel with
  | zero => intro n h1 h2; omega
  | succ f ih =>
      intro n h1 h2
      by_cases h : 2 ≤ n
      · have hrec := ih (n / 2) (by omega) (by omega)
        simp only [log2Fuel, if_pos h]
        rw [pow_succ]
        omega
      · simp only [log2Fuel, if_neg h]
        omega

theorem natLog2_le (n : ℕ) (h : 1 ≤ n) : 2 ^ natLog2 n ≤ n :=
  log2Fuel_le n n h le_rfl

theorem roundHalfEven_intCast (n : ℤ) : roundHalfEven ((n : ℚ)) = n := by
  unfold roundHalfEven
  rw [Int.floor_intCast, sub_self]
  norm_num

theorem nearestDouble_zero : nearestDouble 0 = 0 := by
  unfold nearestDouble
  simp

/-- Naturals below 2^53 are exactly representable: the nearest double is
the number itself. -/
theorem nearestDouble_natCast (k : ℕ) (h1 : 1 ≤ k) (h53 : k < 2 ^ 53) :
    nearestDouble ((k : ℕ) : ℚ) = k := by
  have hk0 : ((k : ℕ) : ℚ) ≠ 0 := by
    have : (0 : ℚ) < k := by exact_mod_cast h1
    exact ne_of_gt this
  have habs : |((k : ℕ) : ℚ)| = ((k : ℕ) : ℚ) :=
    abs_of_nonneg (by positivity)
  have hle : 2 ^ natLog2 k ≤ k := natLog2_le k h1
  have ha52 : natLog2 k ≤ 52 := by
    by_contra hcon
    push_neg at hcon
    have : 2 ^ 53 ≤ 2 ^ natLog2 k := Nat.pow_le_pow_right (by norm_num) hcon
    omega
  have hL : ratFloorLog2 |((k : ℕ) : ℚ)| = (natLog2 k : ℤ) := by
    rw [habs]
    unfold ratFloorLog2
    have hnum : ((k : ℕ) : ℚ).num.natAbs = k := by
      simp [Rat.num_natCast]
    have hden : ((k : ℕ) : ℚ).den = 1 := Rat.den_natCast k
    rw [hnum, hden]
    rw [show natLog2 1 = 0 from rfl]
    rw [if_neg]
    · simp
    · rw [not_lt]
      rw [show ((natLog2 k : ℤ) - ((0 : ℕ) : ℤ)) = ((natLog2 k : ℕ) : ℤ)
        from by omega]
      rw [zpow_natCast]
      exact_mod_cast hle
  unfold nearestDouble
  rw [if_neg hk0, hL]
  rw [show (52 - (natLog2 k : ℤ)) = ((52 - natLog2 k : ℕ) : ℤ) from by
    omega]
  rw [show ((natLog2 k : ℤ) - 52) = -((52 - natLog2 k : ℕ) : ℤ) from by
    omega]
  rw [zpow_natCast, zpow_neg, zpow_natCast]
  rw [show ((k : ℕ) : ℚ) * 2 ^ (52 - natLog2 k) =
      (((k * 2 ^ (52 - natLog2 k) : ℕ) : ℤ) : ℚ) from by push_cast; ring]
  rw [roundHalfEven_intCast]
  push_cast
  rw [mul_assoc, mul_inv_cancel₀ (by positivity), mul_one]

theorem ratTrunc_natCast (k : ℕ) : ratTrunc ((k : ℕ) : ℚ) = (k : ℤ) := by
  unfold ratTrunc
  rw [if_pos (by positivity)]
  exact_mod_cast Int.floor_natCast k

theorem ofSeconds_natCast (k : ℕ) :
    Timedelta.ofSeconds ((k : ℕ) : ℚ) = ⟨(k : ℤ) * 1000000⟩ := by
  unfold Timedelta.ofSeconds
  rw [ratTrunc_natCast]
  rw [show (((k : ℕ) : ℚ) - ((k : ℤ) : ℚ)) = 0 from by push_cast; ring]
  rw [zero_mul, nearestDouble_zero,
    show (0 : ℚ) = ((0 : ℤ) : ℚ) from rfl, roundHalfEven_intCast]
  simp

theorem total_seconds_whole (k : ℕ) :
    Timedelta.total_seconds ⟨(k : ℤ) * 1000000⟩ =
      nearestDouble ((k : ℕ) : ℚ) := by
  unfold Timedelta.total_seconds
  congr 1
  push_cast
  exact mul_div_cancel_right₀ _ (by norm_num)

/-- The seconds-backend round trip is exact on whole-second durations
below 2^53 seconds — a class containing every representable whole-second
Python timedelta, whose magnitude is capped near 8.64·10^13 seconds. -/
theorem sqlite_whole_second_roundtrip (k : ℕ) (h53 : k < 2 ^ 53) :
    Timedelta.ofSeconds (Timedelta.total_seconds ⟨(k : ℤ) * 1000000⟩) =
      ⟨(k : ℤ) * 1000000⟩ := by
  rw [total_seconds_whole]
  rcases Nat.eq_zero_or_pos k with h0 | h1
  · subst h0
    decide
  · rw [nearestDouble_natCast k h1 h53, ofSeconds_natCast]

theorem readMaxAge_write_sqlite (td : Timedelta) :
    readMaxAge .sqlite (writeMaxAge .sqlite td) =
      Timedelta.ofSeconds td.total_seconds := rfl

/-- On the duration-typed backends the `max_age` column round-trips
unchanged. -/
theorem readMaxAge_write_of_ne (scheme : Scheme) (h : scheme ≠ .sqlite)
    (td : Timedelta) : readMaxAge scheme (writeMaxAge scheme td) = td := by
  cases scheme with
  | sqlite => exact absurd rfl h
  | postgres => rfl
  | cockroach => rfl

/-- `find?` through a map that rewrites exactly the matching rows, when
the rewrite preserves the match. -/
theorem find?_map_update {α : Type} (p : α → Bool) (u : α → α)
    (hu : ∀ r, p r = true → p (u r) = true) :
    ∀ l : List α,
      (l.map (fun r => if p r then u r else r)).find? p =
        (l.find? p).map u := by
  intro l
  induction l with
  | nil => rfl
  | cons a t ih =>
      by_cases ha : p a = true
      · simp only [List.map_cons, if_pos ha]
        rw [List.find?_cons_of_pos _ (hu a ha),
          List.find?_cons_of_pos _ ha]
        rfl
      · rw [Bool.not_eq_true] at ha
        have ha2 : ¬(p a = true) := by simp [ha]
        simp only [List.map_cons, if_neg ha2]
        rw [List.find?_cons_of_neg _ ha2, List.find?_cons_of_neg _ ha2]
        exact ih

/-- Adding an outbound group session and reading the same room back
returns the session with every field intact except `max_age`, which has
passed through the scheme's column conversion; any backend scheme, any
prior state. -/
theorem add_get_outbound_eq (scheme : Scheme) (account_id : String)
    (s : OutboundGroupSession) (st : DBState) :
    get_outbound_group_session scheme account_id s.room_id
      (add_outbound_group_session scheme account_id s st) =
      some { s with
              max_age := readMaxAge scheme (writeMaxAge scheme s.max_age) }
    := by
  unfold add_outbound_group_session get_outbound_group_session
  by_cases hAny : st.outbound_sessions.any
      (outboundKeyMatch account_id s.room_id) = true
  · rw [if_pos hAny]
    dsimp only
    rw [find?_map_update (outboundKeyMatch account_id s.room_id)
      (outboundUpdatedRow scheme s) (fun r hr => hr)
      st.outbound_sessions]
    obtain ⟨r0, hr0⟩ := Option.isSome_iff_exists.mp
      (List.find?_isSome.mpr (List.any_eq_true.mp hAny))
    rw [hr0]
    have hkey := List.find?_some hr0
    unfold outboundKeyMatch at hkey
    rw [Bool.and_eq_true, beq_iff_eq, beq_iff_eq] at hkey
    simp only [Option.map_some']
    unfold outboundUpdatedRow OutboundGroupSession.from_pickle
      OutboundGroupSession.pickle
    dsimp only
    rw [hkey.2]
  · rw [if_neg hAny]
    dsimp only
    rw [Bool.not_eq_true] at hAny
    have hnone : st.outbound_sessions.find?
        (outboundKeyMatch account_id s.room_id) = none :=
      List.find?_eq_none.mpr (List.any_eq_false.mp hAny)
    rw [find?_append_none _ _ hnone]
    rw [List.find?_cons_of_pos _ (by simp [outboundKeyMatch])]
    unfold OutboundGroupSession.from_pickle OutboundGroupSession.pickle
    dsimp only

/-- Claim C7 (amended): `add_outbound_group_session` followed by
`get_outbound_group_session` for the same room yields a session whose
`message_count`, `max_age` and `shared` flag equal the stored session's:
exactly, for every session, on the duration-typed backends; and on the
seconds-storing backend exactly whenever `max_age` is a whole number of
seconds below 2^53 — a class containing every representable whole-second
Python duration — the IEEE-double conversion making the round trip
inexact for some other valid durations. -/
theorem add_get_outbound_group_session_roundtrip (scheme : Scheme)
    (account_id : String) (s : OutboundGroupSession) (st : DBState) :
    (scheme ≠ .sqlite →
      ∃ s2 : OutboundGroupSession,
        get_outbound_group_session scheme account_id s.room_id
          (add_outbound_group_session scheme account_id s st) = some s2 ∧
        s2.message_count = s.message_count ∧ s2.max_age = s.max_age ∧
        s2.shared = s.shared) ∧
    ((∃ k : ℕ, k < 2 ^ 53 ∧ s.max_age = ⟨(k : ℤ) * 1000000⟩) →
      ∃ s2 : OutboundGroupSession,
        get_outbound_group_session scheme account_id s.room_id
          (add_outbound_group_session scheme account_id s st) = some s2 ∧
        s2.message_count = s.message_count ∧ s2.max_age = s.max_age ∧
        s2.shared = s.shared) := by
  constructor
  · intro h
    refine ⟨_, add_get_outbound_eq scheme account_id s st, rfl, ?_, rfl⟩
    exact readMaxAge_write_of_ne scheme h s.max_age
  · rintro ⟨k, hk, hma⟩
    refine ⟨_, add_get_outbound_eq scheme account_id s st, rfl, ?_, rfl⟩
    cases scheme with
    | sqlite =>
        show readMaxAge .sqlite (writeMaxAge .sqlite s.max_age) =
          s.max_age
        rw [readMaxAge_write_sqlite, hma]
        exact sqlite_whole_second_roundtrip k hk
    | postgres =>
        exact readMaxAge_write_of_ne .postgres (by decide) s.max_age
    | cockroach =>
        exact readMaxAge_write_of_ne .cockroach (by decide) s.max_age

/-- An outbound session whose `max_age` is 2^53 + 2 microseconds, a valid
duration of about 285 years. -/
def c7Big : OutboundGroupSession :=
  ⟨"ratchet", "sid", "room", true, 100, 5, ⟨9007199254740994⟩, 10, 20⟩

set_option maxRecDepth 4000 in
/-- Counterexample to claim C7 as stated: on the seconds-storing backend
the stored `max_age` of 2^53 + 2 microseconds reads back as 2^53 + 1
microseconds — one microsecond short — because `total_seconds()` returns
an IEEE double. -/
theorem add_get_outbound_not_exact_on_sqlite :
    (get_outbound_group_session .sqlite "acct" "room"
        (add_outbound_group_session .sqlite "acct" c7Big emptyDB)).map
      (fun s2 => s2.max_age) = some ⟨9007199254740993⟩ ∧
    (get_outbound_group_session .sqlite "acct" "room"
        (add_outbound_group_session .sqlite "acct" c7Big emptyDB)).map
      (fun s2 => s2.max_age) ≠ some c7Big.max_age := by decide

/-- A session with the practical one-week rotation period. -/
def c7Week : OutboundGroupSession :=
  ⟨"ratchet", "sid", "room", true, 100, 5, ⟨604800000000⟩, 10, 20⟩

/-- Witness for the amended C7: a one-week `max_age` round-trips exactly
on the seconds-storing backend. -/
theorem add_get_outbound_group_session_roundtrip_witness :
    (∃ k : ℕ, k < 2 ^ 53 ∧ c7Week.max_age = ⟨(k : ℤ) * 1000000⟩) ∧
    (∃ s2 : OutboundGroupSession,
      get_outbound_group_session .sqlite "acct" c7Week.room_id
        (add_outbound_group_session .sqlite "acct" c7Week emptyDB) =
        some s2 ∧
      s2.message_count = c7Week.message_count ∧
      s2.max_age = c7Week.max_age ∧ s2.shared = c7Week.shared) :=
  ⟨⟨604800, by norm_num, by decide⟩,
    (add_get_outbound_group_session_roundtrip .sqlite "acct" c7Week
      emptyDB).2 ⟨604800, by norm_num, by decide⟩⟩

/-! ## Claim C8: best-effort cross-signing writes -/

theorem digitChar_isDigit (d : Nat) (h : d < 10) :
    (Nat.digitChar d).isDigit = true := by
  interval_cases d <;> decide

theorem digitChar_val (d : Nat) (h : d < 10) :
    (Nat.digitChar d).toNat - 48 = d := by
  interval_cases d <;> decide

theorem renderNat_digits (n : Nat) :
    renderNat n ≠ [] ∧ (renderNat n).all Char.isDigit = true := by
  induction n using Nat.strong_induction_on with
  | _ n ih =>
      unfold renderNat
      by_cases h : n < 10
      · rw [dif_pos h]
        exact ⟨by simp, by simpa using digitChar_isDigit n h⟩
      · rw [dif_neg h]
        have hd := ih (n / 10) (Nat.div_lt_self (by omega) (by omega))
        refine ⟨by simp, ?_⟩
        rw [List.all_append, hd.2]
        simpa using digitChar_isDigit (n % 10) (Nat.mod_lt _ (by omega))

theorem parseNatChars_renderNat (n : Nat) :
    parseNatChars (renderNat n) = n := by
  induction n using Nat.strong_induction_on with
  | _ n ih =>
      unfold renderNat parseNatChars
      by_cases h : n < 10
      · rw [dif_pos h]
        simpa using digitChar_val n h
      · rw [dif_neg h]
        rw [List.foldl_append]
        have h1 := ih (n / 10) (Nat.div_lt_self (by omega) (by omega))
        unfold parseNatChars at h1
        rw [h1]
        have h2 := digitChar_val (n % 10) (Nat.mod_lt _ (by omega))
        have h3 := Nat.div_add_mod n 10
        simp only [List.foldl_cons, List.foldl_nil, h2]
        omega

/-- The status string a transactional driver returns for a `DELETE` of
`n` rows passes the prefix-and-decimal guard of the source and parses
back to `n`. -/
theorem parse_tag_renderNat (n : Nat) :
    (deleteTag.isPrefixOf (deleteTag ++ renderNat n) &&
      isDecimalChars ((deleteTag ++ renderNat n).drop deleteTag.length)) =
      true ∧
    parseNatChars ((deleteTag ++ renderNat n).drop deleteTag.length) =
      n := by
  have hdrop : (deleteTag ++ renderNat n).drop deleteTag.length =
      renderNat n := List.drop_left ..
  constructor
  · rw [Bool.and_eq_true]
    constructor
    · exact List.isPrefixOf_iff_prefix.mpr (List.prefix_append ..)
    · rw [hdrop]
      unfold isDecimalChars
      rw [Bool.and_eq_true]
      exact ⟨by simpa using (renderNat_digits n).1, (renderNat_digits n).2⟩
  · rw [hdrop]
    exact parseNatChars_renderNat n

/-- Claim C8: `put_cross_signing_key` and `put_signature` return normally
whether or not the backend write fails, a failed write leaving the state
untouched; `drop_signatures_by_key` reports the exact number of deleted
rows under a faithful backend of either driver family, `-1` when the
`DELETE` itself fails (with no rows removed), and `-1` when the backend
response cannot be parsed for a row count. -/
theorem cross_signing_best_effort :
    (∀ (fails : Bool) (user_id usage : String) (key : SigningKey)
        (st : DBState),
      put_cross_signing_key fails user_id usage key st =
        (if fails then st
          else { st with
                  cross_signing_keys :=
                    putCrossSigningKeyWrite user_id usage key
                      st.cross_signing_keys },
          fails)) ∧
    (∀ (fails : Bool) (target signer : UserID × SigningKey)
        (signature : String) (st : DBState),
      put_signature fails target signer signature st =
        (if fails then st
          else { st with
                  cross_signing_sigs :=
                    putSignatureWrite target signer signature
                      st.cross_signing_sigs },
          fails)) ∧
    (∀ (e : String) (signer : UserID × SigningKey) (st : DBState),
      drop_signatures_by_key (.error e) signer st = (-1, st)) ∧
    (∀ (scheme : Scheme) (signer : UserID × SigningKey) (st : DBState),
      drop_signatures_by_key
          (.ok (deleteResponse scheme (countSignaturesBy signer st)))
          signer st =
        ((countSignaturesBy signer st : Int),
          dropSignaturesState signer st)) ∧
    (∀ (s : List Char) (signer : UserID × SigningKey) (st : DBState),
      (deleteTag.isPrefixOf s &&
        isDecimalChars (s.drop deleteTag.length)) = false →
      drop_signatures_by_key (.ok (.status s)) signer st =
        (-1, dropSignaturesState signer st)) := by
  refine ⟨?_, ?_, ?_, ?_, ?_⟩
  · intro fails user_id usage key st
    cases fails <;> rfl
  · intro fails target signer signature st
    cases fails <;> rfl
  · intro e signer st
    rfl
  · intro scheme signer st
    cases scheme with
    | sqlite => rfl
    | postgres =>
        unfold drop_signatures_by_key deleteResponse
        dsimp only
        rw [if_pos (parse_tag_renderNat (countSignaturesBy signer st)).1,
          (parse_tag_renderNat (countSignaturesBy signer st)).2]
    | cockroach =>
        unfold drop_signatures_by_key deleteResponse
        dsimp only
        rw [if_pos (parse_tag_renderNat (countSignaturesBy signer st)).1,
          (parse_tag_renderNat (countSignaturesBy signer st)).2]
  · intro s signer st hcond
    have hc2 : ¬((deleteTag.isPrefixOf s &&
        isDecimalChars (s.drop deleteTag.length)) = true) := by
      simp [hcond]
    unfold drop_signatures_by_key
    dsimp only
    rw [if_neg hc2]

/-- Witness for C8: an unparseable backend response yields the sentinel
`-1`. -/
theorem cross_signing_best_effort_witness :
    (deleteTag.isPrefixOf ['x'] &&
      isDecimalChars ((['x'] : List Char).drop deleteTag.length)) =
      false ∧
    drop_signatures_by_key (.ok (.status ['x'])) ("u", "k") emptyDB =
      (-1, dropSignaturesState ("u", "k") emptyDB) :=
  ⟨by decide,
    cross_signing_best_effort.2.2.2.2 ['x'] ("u", "k") emptyDB
      (by decide)⟩

end Mautrix
